import Mathlib

/-!
# Verification of rust2rpm's dependency-translation engine

A shallow embedding, in Lean 4, of the rust2rpm tool (Convert Rust crates
to RPM).  The repository ships two command-line front ends:

* `rust2rpm.py` — the standalone script: it downloads a crate, checks the
  archive member names for path traversal, runs the external dependency
  generator (`cargodeps`) once per dependency category, and renders a
  Jinja template.  The `fedora-26` target leaves provides/requires/conflicts
  empty; the `epel-7` target queries the generator for all seven lists.
* `rust2rpm/__main__.py` — the packaged CLI (`main`): same archive check,
  builds a `Metadata` object and selects a packaging shape from the crate's
  build targets (bins vs libs), then renders a template whose dependency
  loops sort by the dependency object's `name` attribute.

The dependency generator itself, the `Metadata` parser and the version
requirement engine are not part of these sources; where a claim is decided
by them, the corresponding definition is modelled from the specification
and says so in its doc comment.
-/

namespace Rust2Rpm

/-! ## Dependency-list selection by distribution target (`rust2rpm.py` lines 131–143)

`run_depgen` invokes the external generator with one flag and returns its
output lines.  We abstract it as a function from the flag to the resulting
list of encoded dependency strings.  The `__main__` block then builds the
seven lists: the four build/test lists always come from the generator, and
for the `fedora-26` target the provides/requires/conflicts lists are set to
the literal empty list without calling the generator.
-/

/-- Distribution targets accepted by the standalone script's `--target`. -/
inductive Target where
  | epel7
  | fedora26
deriving DecidableEq, Repr

/-- The seven dependency-category lists handed to the template renderer. -/
structure DepLists where
  buildrequires : List String
  buildconflicts : List String
  testrequires : List String
  testconflicts : List String
  provides : List String
  requires : List String
  conflicts : List String
deriving DecidableEq, Repr

/-- Embedding of `rust2rpm.py` lines 131–143: build the seven lists from the
dependency generator `depgen` (abstracted as flag ↦ output lines), leaving
provides/requires/conflicts empty on the `fedora-26` target. -/
def selectDepLists (depgen : String → List String) (target : Target) : DepLists :=
  let buildrequires := depgen "--build-requires"
  let buildconflicts := depgen "--build-conflicts"
  let testrequires := depgen "--test-requires"
  let testconflicts := depgen "--test-conflicts"
  if target = Target.fedora26 then
    { buildrequires := buildrequires, buildconflicts := buildconflicts,
      testrequires := testrequires, testconflicts := testconflicts,
      provides := [], requires := [], conflicts := [] }
  else
    { buildrequires := buildrequires, buildconflicts := buildconflicts,
      testrequires := testrequires, testconflicts := testconflicts,
      provides := depgen "--provides",
      requires := depgen "--requires",
      conflicts := depgen "--conflicts" }

/-! The packaged CLI (`rust2rpm/__main__.py` lines 277–284) makes the same
mode distinction through template flags: the `fedora` target enables only
the build-requirement loops, the `plain` target additionally enables the
provides and requires loops of the devel subpackage. -/

/-- Distribution targets accepted by the packaged CLI's `--target`. -/
inductive MainTarget where
  | plain
  | fedora
deriving DecidableEq, Repr

/-- The three template gates set by `main` from the distribution target. -/
structure IncludeFlags where
  include_build_requires : Bool
  include_provides : Bool
  include_requires : Bool
deriving DecidableEq, Repr

/-- Embedding of `rust2rpm/__main__.py` lines 277–284. -/
def selectIncludeFlags : MainTarget → IncludeFlags
  | MainTarget.fedora =>
    { include_build_requires := true, include_provides := false,
      include_requires := false }
  | MainTarget.plain =>
    { include_build_requires := true, include_provides := true,
      include_requires := true }

/-- C1: on the layered (`fedora-26`) target the provides/requires/conflicts
lists are the empty list and only the four build/test lists carry generator
output; the generator is not consulted for the three empty lists (the result
depends only on its answers to the four build/test flags); on the flat
(`epel-7`) target all seven lists are taken from the generator.  In the
packaged CLI the `fedora` target likewise disables the provides and requires
template gates while `plain` enables all three. -/
theorem layered_mode_emits_no_provides_requires_conflicts
    (depgen : String → List String) :
    ((selectDepLists depgen Target.fedora26).provides = [] ∧
     (selectDepLists depgen Target.fedora26).requires = [] ∧
     (selectDepLists depgen Target.fedora26).conflicts = []) ∧
    ((selectDepLists depgen Target.fedora26).buildrequires
        = depgen "--build-requires" ∧
     (selectDepLists depgen Target.fedora26).buildconflicts
        = depgen "--build-conflicts" ∧
     (selectDepLists depgen Target.fedora26).testrequires
        = depgen "--test-requires" ∧
     (selectDepLists depgen Target.fedora26).testconflicts
        = depgen "--test-conflicts") ∧
    (selectDepLists depgen Target.epel7 =
      { buildrequires := depgen "--build-requires",
        buildconflicts := depgen "--build-conflicts",
        testrequires := depgen "--test-requires",
        testconflicts := depgen "--test-conflicts",
        provides := depgen "--provides",
        requires := depgen "--requires",
        conflicts := depgen "--conflicts" }) ∧
    (∀ depgen' : String → List String,
      depgen' "--build-requires" = depgen "--build-requires" →
      depgen' "--build-conflicts" = depgen "--build-conflicts" →
      depgen' "--test-requires" = depgen "--test-requires" →
      depgen' "--test-conflicts" = depgen "--test-conflicts" →
      selectDepLists depgen' Target.fedora26
        = selectDepLists depgen Target.fedora26) ∧
    (selectIncludeFlags MainTarget.fedora =
      { include_build_requires := true, include_provides := false,
        include_requires := false } ∧
     selectIncludeFlags MainTarget.plain =
      { include_build_requires := true, include_provides := true,
        include_requires := true }) := by
  refine ⟨⟨rfl, rfl, rfl⟩, ⟨rfl, rfl, rfl, rfl⟩, rfl, ?_, rfl, rfl⟩
  intro depgen' h1 h2 h3 h4
  simp [selectDepLists, h1, h2, h3, h4]

/-- Witness for `layered_mode_emits_no_provides_requires_conflicts` at a
concrete generator: every query answers a one-line list. -/
theorem layered_mode_witness :
    (selectDepLists (fun _ => ["crate(x) = 1.0.0"]) Target.fedora26).provides
      = [] ∧
    selectDepLists (fun f => if f = "--provides" then ["p"] else ["q"])
        Target.fedora26
      = selectDepLists (fun _ => ["q"]) Target.fedora26 := by
  refine ⟨(layered_mode_emits_no_provides_requires_conflicts
            (fun _ => ["crate(x) = 1.0.0"])).1.1, ?_⟩
  exact (layered_mode_emits_no_provides_requires_conflicts
          (fun _ => ["q"])).2.2.2.1
    (fun f => if f = "--provides" then ["p"] else ["q"]) rfl rfl rfl rfl

/-! ## Packaging shape from build targets (`rust2rpm/__main__.py` lines 253–275)

`main` splits the parsed metadata's target list into `bins` (kind `bin`)
and `libs` (kind `lib` or `proc-macro`) and picks the packaging shape:
bin crates become a main package, lib-only crates a `rust-<crate>` devel
subpackage, a crate with both gets a `rust-%{crate}-devel` subpackage, and
a crate with neither raises `ValueError("No bins and no libs")`. -/

/-- A build-artifact descriptor from the parsed metadata (`tgt.kind`,
`tgt.name`). -/
structure BuildTarget where
  kind : String
  name : String
deriving DecidableEq, Repr

/-- The keyword arguments `main` assembles for the template before the
target-mode flags are added. -/
structure PackagingShape where
  spec_basename : String
  include_debug : Bool
  name : String
  include_main : Bool
  bins : List BuildTarget
  name_devel : Option String
deriving DecidableEq, Repr

/-- Embedding of `rust2rpm/__main__.py` lines 253–275: choose the packaging
shape from the crate name and the metadata's target list, or fail with the
`ValueError` message. In the lib-only branch the template never reads
`bins`, so it is embedded as the empty list there. -/
def choosePackaging (crate : String) (targets : List BuildTarget) :
    Except String PackagingShape :=
  let bins := targets.filter (fun tgt => tgt.kind = "bin")
  let libs := targets.filter
    (fun tgt => tgt.kind = "lib" ∨ tgt.kind = "proc-macro")
  let is_bin := bins.length > 0
  let is_lib := libs.length > 0
  if is_bin then
    Except.ok
      { spec_basename := crate, include_debug := true, name := "%{crate}",
        include_main := true, bins := bins,
        name_devel := if ¬ is_lib then none
                      else some "-n rust-%{crate}-devel" }
  else if is_lib then
    Except.ok
      { spec_basename := "rust-" ++ crate, include_debug := false,
        name := "rust-%{crate}", include_main := false, bins := [],
        name_devel := some "   devel" }
  else
    Except.error "No bins and no libs"

/-- C10: with no `bin` and no `lib`/`proc-macro` target, `main` fails with
`ValueError("No bins and no libs")` and no spec is produced; otherwise
exactly one shape results: bin-only crates get a main package and no devel
subpackage, lib-only crates get only the `rust-<crate>` devel-style
subpackage, and crates with both get a main package plus the
`rust-%{crate}-devel` subpackage. -/
theorem choosePackaging_shapes (crate : String) (targets : List BuildTarget) :
    (targets.filter (fun tgt => tgt.kind = "bin") = [] →
     targets.filter (fun tgt => tgt.kind = "lib" ∨ tgt.kind = "proc-macro")
        = [] →
     choosePackaging crate targets = Except.error "No bins and no libs") ∧
    (∀ bins, targets.filter (fun tgt => tgt.kind = "bin") = bins →
     bins ≠ [] →
     targets.filter (fun tgt => tgt.kind = "lib" ∨ tgt.kind = "proc-macro")
        = [] →
     choosePackaging crate targets = Except.ok
      { spec_basename := crate, include_debug := true, name := "%{crate}",
        include_main := true, bins := bins, name_devel := none }) ∧
    (targets.filter (fun tgt => tgt.kind = "bin") = [] →
     targets.filter (fun tgt => tgt.kind = "lib" ∨ tgt.kind = "proc-macro")
        ≠ [] →
     choosePackaging crate targets = Except.ok
      { spec_basename := "rust-" ++ crate, include_debug := false,
        name := "rust-%{crate}", include_main := false, bins := [],
        name_devel := some "   devel" }) ∧
    (∀ bins, targets.filter (fun tgt => tgt.kind = "bin") = bins →
     bins ≠ [] →
     targets.filter (fun tgt => tgt.kind = "lib" ∨ tgt.kind = "proc-macro")
        ≠ [] →
     choosePackaging crate targets = Except.ok
      { spec_basename := crate, include_debug := true, name := "%{crate}",
        include_main := true, bins := bins,
        name_devel := some "-n rust-%{crate}-devel" }) := by
  refine ⟨?_, ?_, ?_, ?_⟩
  · intro hb hl
    simp only [choosePackaging]
    rw [hb, hl]
    simp
  · intro bins hb hbne hl
    simp only [choosePackaging]
    rw [hb, hl]
    simp [List.length_pos, hbne]
  · intro hb hlne
    have hlen := List.length_pos.mpr hlne
    simp only [choosePackaging]
    rw [hb, if_neg (by decide), if_pos hlen]
  · intro bins hb hbne hlne
    have hblen : 0 < bins.length := List.length_pos.mpr hbne
    have hlen := List.length_pos.mpr hlne
    simp only [choosePackaging]
    rw [hb, if_pos hblen, if_neg (not_not_intro hlen)]

/-- Witness for `choosePackaging_shapes`: the crate `hello` with one `bin`
and one `lib` target gets a main package plus the devel subpackage. -/
theorem choosePackaging_shapes_witness :
    choosePackaging "hello"
      [⟨"bin", "hello"⟩, ⟨"lib", "hello"⟩] = Except.ok
      { spec_basename := "hello", include_debug := true, name := "%{crate}",
        include_main := true, bins := [⟨"bin", "hello"⟩],
        name_devel := some "-n rust-%{crate}-devel" } := by
  exact (choosePackaging_shapes "hello"
      [⟨"bin", "hello"⟩, ⟨"lib", "hello"⟩]).2.2.2 [⟨"bin", "hello"⟩]
    (by decide) (by decide) (by decide)

/-! ## Archive member check (`rust2rpm.py` lines 120–127, `__main__.py` lines 221–227)

Both front ends run, before extraction:

    for n in archive.getnames():
        if not os.path.abspath(os.path.join(target_dir, n)).startswith(target_dir):
            raise Exception("Unsafe filenames!")
    archive.extractall(target_dir)

with `target_dir = tmpdir + "/"` for an absolute `tmpdir`.  We embed the
POSIX path functions used: `join` on an absolute directory ending in `/`,
and `abspath` = `normpath` (the argument is always absolute here), which
drops empty and `.` components and lets `..` pop the previous component. -/

/-- Character-level prefix test: does `s` start with `pre`?  (Embeds
`str.startswith`; written over `List Char` so terms evaluate by kernel
reduction.) -/
def hasPrefixChars : List Char → List Char → Bool
  | [], _ => true
  | _ :: _, [] => false
  | c :: pre, d :: s => c = d ∧ hasPrefixChars pre s

/-- Split a character list on `/`, keeping empty components, as
`"a/b".split("/")` does. -/
def splitSlash : List Char → List (List Char)
  | [] => [[]]
  | c :: cs =>
    if c = '/' then [] :: splitSlash cs
    else
      match splitSlash cs with
      | [] => [[c]]
      | w :: ws => (c :: w) :: ws

/-- Rejoin components with `/` separators (`"/".join(comps)`). -/
def joinSlash : List (List Char) → List Char
  | [] => []
  | [w] => w
  | w :: ws => w ++ '/' :: joinSlash ws

/-- One step of `posixpath.normpath`'s component scan on an absolute path:
empty and `.` components vanish, `..` pops the accumulated stack (at the
root it is dropped), anything else is pushed. -/
def normStep (acc : List (List Char)) (comp : List Char) : List (List Char) :=
  if comp = [] ∨ comp = ['.'] then acc
  else if comp = ['.', '.'] then acc.dropLast
  else acc ++ [comp]

/-- `posixpath.normpath` restricted to absolute paths: exactly two leading
slashes are preserved, otherwise collapsed to one, and the component scan
resolves `.` and `..`. -/
def normAbs (p : List Char) : List Char :=
  let pre := if hasPrefixChars ['/', '/'] p ∧ ¬ hasPrefixChars ['/', '/', '/'] p
             then ['/', '/'] else ['/']
  pre ++ joinSlash ((splitSlash p).foldl normStep [])

/-- `posixpath.join(target_dir, n)` when `target_dir` ends in `/`: an
absolute `n` replaces the directory, otherwise the two concatenate. -/
def joinPath (target_dir n : List Char) : List Char :=
  if hasPrefixChars ['/'] n then n else target_dir ++ n

/-- The per-member guard of lines 124–126: the absolute form of the joined
path must still start with `target_dir`
(`os.path.abspath(os.path.join(target_dir, n)).startswith(target_dir)`). -/
def safeMember (target_dir n : String) : Bool :=
  hasPrefixChars target_dir.data (normAbs (joinPath target_dir.data n.data))

/-- The `for` loop of lines 124–126: scan all member names, raising
`Exception("Unsafe filenames!")` at the first unsafe one. -/
def checkMembers (target_dir : String) : List String → Except String Unit
  | [] => Except.ok ()
  | n :: rest =>
    if safeMember target_dir n then checkMembers target_dir rest
    else Except.error "Unsafe filenames!"

/-- The path a member is extracted to. -/
def memberPath (target_dir n : String) : String :=
  String.mk (joinPath target_dir.data n.data)

/-- Lines 123–127 as a state transformer on the set of written files: the
member-name loop runs first, and only when it finishes without raising does
`extractall` write every member under `target_dir`; a raise leaves the
written-file state as it was. -/
def extractArchive (target_dir : String) (names : List String)
    (written : List String) : List String × Option String :=
  match checkMembers target_dir names with
  | Except.error e => (written, some e)
  | Except.ok _ => (written ++ names.map (memberPath target_dir), none)

/-- `checkMembers` succeeds exactly when every member name passes the
guard. -/
theorem checkMembers_ok_iff (target_dir : String) (names : List String) :
    checkMembers target_dir names = Except.ok () ↔
      ∀ n ∈ names, safeMember target_dir n = true := by
  induction names with
  | nil => simp [checkMembers]
  | cons n rest ih =>
    by_cases h : safeMember target_dir n = true
    · simp [checkMembers, h, ih]
    · simp [checkMembers, h]

/-- The member loop has only two outcomes: clean success or the
`Unsafe filenames!` exception. -/
theorem checkMembers_cases (target_dir : String) (names : List String) :
    checkMembers target_dir names = Except.ok () ∨
      checkMembers target_dir names = Except.error "Unsafe filenames!" := by
  induction names with
  | nil => exact Or.inl rfl
  | cons n rest ih =>
    by_cases hsafe : safeMember target_dir n = true
    · simpa [checkMembers, hsafe] using ih
    · simp [checkMembers, hsafe]

/-- C9: the guard is atomic: if any archive member name fails the
`abspath(join(target_dir, n)).startswith(target_dir)` check, extraction
fails with `Exception("Unsafe filenames!")` and the written-file state is
unchanged; only when every name passes are the members written. -/
theorem extractArchive_guard (target_dir : String) (names : List String)
    (written : List String) :
    ((∃ n ∈ names, ¬ safeMember target_dir n = true) →
      extractArchive target_dir names written
        = (written, some "Unsafe filenames!")) ∧
    ((∀ n ∈ names, safeMember target_dir n = true) →
      extractArchive target_dir names written
        = (written ++ names.map (memberPath target_dir), none)) := by
  constructor
  · intro h
    have hnot : ¬ checkMembers target_dir names = Except.ok () := by
      rw [checkMembers_ok_iff]
      intro hall
      obtain ⟨n, hn, hbad⟩ := h
      exact hbad (hall n hn)
    have herr : checkMembers target_dir names
        = Except.error "Unsafe filenames!" :=
      (checkMembers_cases target_dir names).resolve_left hnot
    simp [extractArchive, herr]
  · intro h
    have hok := (checkMembers_ok_iff target_dir names).mpr h
    simp [extractArchive, hok]

/-- Witness for `extractArchive_guard`: under `/tmp/t/`, the member list
`["hello-0.0.0/Cargo.toml", "../evil"]` contains the traversal name
`../evil`, so extraction raises and writes nothing. -/
theorem extractArchive_guard_witness :
    (∃ n ∈ ["hello-0.0.0/Cargo.toml", "../evil"],
        ¬ safeMember "/tmp/t/" n = true) ∧
    extractArchive "/tmp/t/" ["hello-0.0.0/Cargo.toml", "../evil"] []
      = ([], some "Unsafe filenames!") := by
  refine ⟨⟨"../evil", by decide, by decide⟩, ?_⟩
  exact (extractArchive_guard "/tmp/t/"
      ["hello-0.0.0/Cargo.toml", "../evil"] []).1
    ⟨"../evil", by decide, by decide⟩

/-! ## Version Requirement Parser

Modelled from the spec: the version-requirement engine (spec §4.1) is not
among these sources (the repository delegates it to the external
`cargodeps`/`semantic_version` collaborators), so the parser and range
semantics below follow the specification's words: a comma-separated list
of comparators, each an operator in `=`, `>`, `>=`, `<`, `<=`, `^`, `~` or
a bare (possibly partial) version; caret means compatible within the same
leftmost nonzero component, tilde means same minor when the minor is given
else same major, a partial bare version is a wildcard on the missing
trailing components, and comma-separated comparators intersect.  Malformed
input fails with a `ParseError` carrying the offending substring. -/

/-- A parsed semantic version (numeric triple; the spec's optional
pre-release tail plays no role in any claim here). -/
structure SemVer where
  major : Nat
  minor : Nat
  patch : Nat
deriving DecidableEq, Repr

/-- Strict lexicographic order on version triples. -/
def verLt (a b : SemVer) : Bool :=
  a.major < b.major ∨
  (a.major = b.major ∧ (a.minor < b.minor ∨
    (a.minor = b.minor ∧ a.patch < b.patch)))

/-- Non-strict lexicographic order on version triples. -/
def verLe (a b : SemVer) : Bool :=
  a = b ∨ verLt a b

/-- A possibly partial version pattern as written in a requirement:
`1`, `1.2`, `1.2.3`. -/
structure VerPat where
  major : Nat
  minor : Option Nat
  patch : Option Nat
deriving DecidableEq, Repr

/-- Fill a pattern's missing trailing components with zero (its lower
bound). -/
def VerPat.lower (p : VerPat) : SemVer :=
  ⟨p.major, p.minor.getD 0, p.patch.getD 0⟩

/-- One comparator of a requirement expression. -/
inductive Comp where
  | eqC (p : VerPat)
  | gtC (p : VerPat)
  | geC (p : VerPat)
  | ltC (p : VerPat)
  | leC (p : VerPat)
  | caret (p : VerPat)
  | tilde (p : VerPat)
  | wildcardAll
  | wildcard (p : VerPat)
deriving DecidableEq, Repr

/-- Exclusive upper bound of a caret requirement: one past the leftmost
nonzero component (`^1.2.3 < 2.0.0`, `^0.2.3 < 0.3.0`, `^0.0.3 < 0.0.4`,
and for `^0.0` / `^0` one past the last component given). -/
def caretUpper (p : VerPat) : SemVer :=
  if p.major > 0 then ⟨p.major + 1, 0, 0⟩
  else match p.minor with
    | none => ⟨1, 0, 0⟩
    | some mi =>
      if mi > 0 then ⟨0, mi + 1, 0⟩
      else match p.patch with
        | none => ⟨0, 1, 0⟩
        | some pa => ⟨0, 0, pa + 1⟩

/-- Exclusive upper bound of a tilde requirement: same minor when a minor
is given, else same major. -/
def tildeUpper (p : VerPat) : SemVer :=
  match p.minor with
  | some mi => ⟨p.major, mi + 1, 0⟩
  | none => ⟨p.major + 1, 0, 0⟩

/-- Exclusive upper bound of a partial-version wildcard: one past the last
given component. -/
def wildUpper (p : VerPat) : SemVer :=
  match p.minor with
  | none => ⟨p.major + 1, 0, 0⟩
  | some mi =>
    match p.patch with
    | none => ⟨p.major, mi + 1, 0⟩
    | some pa => ⟨p.major, mi, pa⟩

/-- Does version `v` satisfy one comparator? -/
def Comp.sat (c : Comp) (v : SemVer) : Bool :=
  match c with
  | Comp.eqC p =>
    match p.minor, p.patch with
    | some _, some _ => v = p.lower
    | _, _ => verLe p.lower v ∧ verLt v (wildUpper p)
  | Comp.gtC p => verLt (VerPat.lower p) v
  | Comp.geC p => verLe (VerPat.lower p) v
  | Comp.ltC p => verLt v (VerPat.lower p)
  | Comp.leC p => verLe v (VerPat.lower p)
  | Comp.caret p => verLe (VerPat.lower p) v ∧ verLt v (caretUpper p)
  | Comp.tilde p => verLe (VerPat.lower p) v ∧ verLt v (tildeUpper p)
  | Comp.wildcardAll => true
  | Comp.wildcard p => verLe (VerPat.lower p) v ∧ verLt v (wildUpper p)

/-- A requirement is the intersection (AND) of its comparators. -/
def satisfiesRange (r : List Comp) (v : SemVer) : Bool :=
  r.all (fun c => Comp.sat c v)

/-- Leading decimal digits of a character list, with the remainder. -/
def takeDigits : List Char → List Char × List Char
  | [] => ([], [])
  | c :: cs =>
    if c.isDigit then
      let (ds, rest) := takeDigits cs
      (c :: ds, rest)
    else ([], c :: cs)

/-- Value of a nonempty digit string. -/
def digitsVal (ds : List Char) : Nat :=
  ds.foldl (fun acc c => acc * 10 + (c.toNat - '0'.toNat)) 0

/-- Parse a (possibly partial) dotted version pattern; the whole input must
be consumed.  Failure reports the offending substring. -/
def parseVerPat (s : List Char) : Except String VerPat :=
  let (d1, r1) := takeDigits s
  if d1 = [] then Except.error (String.mk s)
  else match r1 with
    | [] => Except.ok ⟨digitsVal d1, none, none⟩
    | '.' :: r2 =>
      let (d2, r3) := takeDigits r2
      if d2 = [] then Except.error (String.mk s)
      else match r3 with
        | [] => Except.ok ⟨digitsVal d1, some (digitsVal d2), none⟩
        | '.' :: r4 =>
          let (d3, r5) := takeDigits r4
          if d3 = [] ∨ r5 ≠ [] then Except.error (String.mk s)
          else Except.ok ⟨digitsVal d1, some (digitsVal d2),
                          some (digitsVal d3)⟩
        | _ => Except.error (String.mk s)
    | _ => Except.error (String.mk s)

/-- Parse one comparator: an optional operator prefix, then a version
pattern; a bare full version means caret-compatible, a bare partial version
is a wildcard on its missing components, and `*` alone matches anything. -/
def parseComp (s : List Char) : Except String Comp :=
  match s with
  | '^' :: rest => (parseVerPat rest).map Comp.caret
  | '~' :: rest => (parseVerPat rest).map Comp.tilde
  | '>' :: '=' :: rest => (parseVerPat rest).map Comp.geC
  | '<' :: '=' :: rest => (parseVerPat rest).map Comp.leC
  | '>' :: rest => (parseVerPat rest).map Comp.gtC
  | '<' :: rest => (parseVerPat rest).map Comp.ltC
  | '=' :: rest => (parseVerPat rest).map Comp.eqC
  | ['*'] => Except.ok Comp.wildcardAll
  | rest =>
    (parseVerPat rest).map (fun p =>
      match p.minor, p.patch with
      | some _, some _ => Comp.caret p
      | _, _ => Comp.wildcard p)

/-- Split a character list on `,`. -/
def splitComma : List Char → List (List Char)
  | [] => [[]]
  | c :: cs =>
    if c = ',' then [] :: splitComma cs
    else
      match splitComma cs with
      | [] => [[c]]
      | w :: ws => (c :: w) :: ws

/-- Drop surrounding spaces. -/
def trimChars (s : List Char) : List Char :=
  (((s.dropWhile (fun c => c = ' ')).reverse.dropWhile
      (fun c => c = ' ')).reverse)

/-- Modelled from the spec: `parse(expr) -> Range | Error` (spec §4.1).
Split on commas, parse each comparator, intersect; the first malformed
comparator aborts with a `ParseError` carrying the offending substring. -/
def parseReq (expr : String) : Except String (List Comp) :=
  (splitComma expr.data).foldr
    (fun part acc =>
      match parseComp (trimChars part) with
      | Except.error e => Except.error e
      | Except.ok c =>
        match acc with
        | Except.error e => Except.error e
        | Except.ok cs => Except.ok (c :: cs))
    (Except.ok [])

/-- C6: the parsed ranges follow the semantic-versioning compatible-range
rules: `^1.2.3` is satisfied by `1.9.9` but not `2.0.0`; `^0.2.3` is
satisfied exactly by the versions `>= 0.2.3` and `< 0.3.0`; `~1.2.3` is
satisfied by `1.2.9` but not `1.3.0`. -/
theorem parse_satisfies_semver_ranges :
    (∃ r, parseReq "^1.2.3" = Except.ok r ∧
      satisfiesRange r ⟨1, 9, 9⟩ = true ∧
      satisfiesRange r ⟨2, 0, 0⟩ = false) ∧
    (∃ r, parseReq "^0.2.3" = Except.ok r ∧
      ∀ v : SemVer, satisfiesRange r v = true ↔
        (verLe ⟨0, 2, 3⟩ v = true ∧ verLt v ⟨0, 3, 0⟩ = true)) ∧
    (∃ r, parseReq "~1.2.3" = Except.ok r ∧
      satisfiesRange r ⟨1, 2, 9⟩ = true ∧
      satisfiesRange r ⟨1, 3, 0⟩ = false) := by
  refine ⟨⟨[Comp.caret ⟨1, some 2, some 3⟩], rfl, by decide, by decide⟩,
    ⟨[Comp.caret ⟨0, some 2, some 3⟩], rfl, ?_⟩,
    ⟨[Comp.tilde ⟨1, some 2, some 3⟩], rfl, by decide, by decide⟩⟩
  intro v
  simp [satisfiesRange, Comp.sat, caretUpper, VerPat.lower]

/-! ## Feature Resolver

Modelled from the spec: the feature resolver (spec §4.3) lives in the
external `cargodeps` collaborator, not in these sources.  Expansion is a
depth-first walk of the feature map: an activation token `dep/feature`
activates that dependency with that feature, a token naming another
feature expands recursively with the current path as the visited set, and
any other token activates the dependency of that name.  Revisiting a
feature on the current expansion path fails with `CycleError` naming the
repeated feature.  The recursion is written against explicit fuel so that
the depth bound (the number of features) is itself a theorem. -/

/-- Resolution failures: a feature-activation cycle, or fuel exhaustion
(shown unreachable for sufficient fuel by `expandFuel_ne_none`). -/
inductive ResolveErr where
  | cycle (f : String)
  | fuelOut
deriving DecidableEq, Repr

/-- Split an activation token: `dep/feature` activates the dependency and
that feature of it, anything else is a bare name. -/
def splitToken (a : String) : String × Option String :=
  match splitSlash a.data with
  | [d, f] => (String.mk d, some (String.mk f))
  | _ => (a, none)

/-- Fold step over one activation token: dependency tokens accumulate an
activation pair, feature tokens run the supplied recursive expansion. -/
def expandStep
    (recur : String → Option (Except ResolveErr (List (String × Option String))))
    (fm : List (String × List String))
    (acc : Option (Except ResolveErr (List (String × Option String))))
    (a : String) : Option (Except ResolveErr (List (String × Option String))) :=
  match acc with
  | none => none
  | some (Except.error e) => some (Except.error e)
  | some (Except.ok l) =>
    match splitToken a with
    | (dep, some ft) => some (Except.ok (l ++ [(dep, some ft)]))
    | (tok, none) =>
      if (List.lookup tok fm).isSome then
        match recur tok with
        | none => none
        | some (Except.error e) => some (Except.error e)
        | some (Except.ok l2) => some (Except.ok (l ++ l2))
      else some (Except.ok (l ++ [(tok, none)]))

/-- Depth-first expansion of one feature with an explicit expansion path
(the visited set) and explicit fuel; `none` is fuel exhaustion. -/
def expandFuel : Nat → List (String × List String) → List String → String →
    Option (Except ResolveErr (List (String × Option String)))
  | 0, _, _, _ => none
  | fuel + 1, fm, path, f =>
    if f ∈ path then some (Except.error (ResolveErr.cycle f))
    else ((List.lookup f fm).getD []).foldl
      (expandStep (fun tok => expandFuel fuel fm (f :: path) tok) fm)
      (some (Except.ok []))

/-- The set of feature names defined by a feature map. -/
def keysOf (fm : List (String × List String)) : Finset String :=
  (fm.map Prod.fst).toFinset

/-- Modelled from the spec: `resolve_activations` (spec §4.3) — expand
every feature of the map, collecting the activated
(dependency, optional feature) pairs; a cycle aborts the whole
resolution. -/
def resolveActivations (fm : List (String × List String)) :
    Except ResolveErr (List (String × Option String)) :=
  (fm.map Prod.fst).foldl
    (fun acc f =>
      match acc with
      | Except.error e => Except.error e
      | Except.ok l =>
        match expandFuel (fm.length + 1) fm [] f with
        | none => Except.error ResolveErr.fuelOut
        | some (Except.error e) => Except.error e
        | some (Except.ok l2) => Except.ok (l ++ l2))
    (Except.ok [])

/-- The fold over activation tokens cannot exhaust fuel if the recursive
expansion never does. -/
theorem foldl_expandStep_ne_none
    (recur : String → Option (Except ResolveErr (List (String × Option String))))
    (fm : List (String × List String))
    (hrec : ∀ tok, recur tok ≠ none) :
    ∀ (as : List String)
      (acc : Option (Except ResolveErr (List (String × Option String)))),
      acc ≠ none → as.foldl (expandStep recur fm) acc ≠ none := by
  intro as
  induction as with
  | nil => intro acc hacc; exact hacc
  | cons a rest ih =>
    intro acc hacc
    rw [List.foldl_cons]
    apply ih
    match acc with
    | none => exact absurd rfl hacc
    | some (Except.error e) => simp [expandStep]
    | some (Except.ok l) =>
      simp only [expandStep]
      match splitToken a with
      | (dep, some ft) => simp
      | (tok, none) =>
        by_cases hl : (List.lookup tok fm).isSome
        · simp only [hl, if_true]
          match hre : recur tok with
          | none => exact absurd hre (hrec tok)
          | some (Except.error e) => simp
          | some (Except.ok l2) => simp
        · simp [hl]

/-- A successful lookup means the key is among the map's keys. -/
theorem mem_keys_of_lookup {f : String} {fm : List (String × List String)}
    {acts : List String} (h : List.lookup f fm = some acts) :
    f ∈ fm.map Prod.fst := by
  induction fm with
  | nil => simp [List.lookup] at h
  | cons kv rest ih =>
    rw [List.lookup] at h
    cases hk : f == kv.1 with
    | true =>
      simp only [List.map_cons, List.mem_cons]
      exact Or.inl (eq_of_beq hk)
    | false =>
      rw [hk] at h
      exact List.mem_cons_of_mem _ (ih h)

/-- Expansion depth is bounded by the number of features not yet on the
path: with that much fuel, `expandFuel` cannot exhaust it. -/
theorem expandFuel_ne_none :
    ∀ (fuel : Nat) (fm : List (String × List String)) (path : List String)
      (f : String),
      (keysOf fm \ path.toFinset).card < fuel →
      expandFuel fuel fm path f ≠ none := by
  intro fuel
  induction fuel with
  | zero => intro fm path f h; omega
  | succ n ih =>
    intro fm path f h
    simp only [expandFuel]
    by_cases hf : f ∈ path
    · simp [hf]
    · simp only [hf, if_false]
      cases hlk : List.lookup f fm with
      | none => simp [hlk]
      | some acts =>
        have hfk : f ∈ keysOf fm := by
          simpa [keysOf] using List.mem_toFinset.mpr (mem_keys_of_lookup hlk)
        have hstep : (keysOf fm \ (f :: path).toFinset).card < n := by
          rw [List.toFinset_cons, Finset.sdiff_insert]
          have hmem : f ∈ keysOf fm \ path.toFinset :=
            Finset.mem_sdiff.mpr ⟨hfk, by simpa using hf⟩
          have h2 := Finset.card_erase_lt_of_mem hmem
          omega
        have hrec : ∀ tok, expandFuel n fm (f :: path) tok ≠ none :=
          fun tok => ih fm (f :: path) tok hstep
        simp only [hlk, Option.getD_some]
        exact foldl_expandStep_ne_none _ fm hrec acts _ (by simp)

/-- C7: feature resolution terminates on every feature map: expansion depth
is bounded by the number of features, so the fuel `resolveActivations`
supplies is never exhausted for any map whatsoever; and on the mutual
cycle `a -> [b]`, `b -> [a]` resolution fails with `CycleError` naming the
repeated feature `a`. -/
theorem feature_resolution_terminates :
    (∀ (fuel : Nat) (fm : List (String × List String)) (path : List String)
        (f : String),
        (keysOf fm \ path.toFinset).card < fuel →
        expandFuel fuel fm path f ≠ none) ∧
    resolveActivations [("a", ["b"]), ("b", ["a"])]
      = Except.error (ResolveErr.cycle "a") := by
  exact ⟨expandFuel_ne_none, rfl⟩

/-- Witness for `feature_resolution_terminates`: on the cyclic two-feature
map, fuel 3 exceeds the key count, so expansion reaches a result. -/
theorem feature_resolution_terminates_witness :
    expandFuel 3 [("a", ["b"]), ("b", ["a"])] [] "a" ≠ none ∧
    (keysOf [("a", ["b"]), ("b", ["a"])] \ ([] : List String).toFinset).card
      < 3 := by
  refine ⟨feature_resolution_terminates.1 3 [("a", ["b"]), ("b", ["a"])]
    [] "a" (by decide), by decide⟩

/-! ## Dependency Normalizer

Modelled from the spec: the dependency generator (spec §4.2) is the
external `cargodeps` collaborator exercised by `test.py` and invoked by
`rust2rpm.py`; it is not among these sources.  The definitions below
follow the specification: translate each dependency's requirement range
into distribution comparator strings `crate(<name>) <op> <version>` (bare
`crate(<name>)` for an empty requirement), route the buckets into the
category lists, skip optional dependencies not activated by the `default`
feature, emit no conflicts in the common case, de-duplicate each list with
set semantics and sort it lexicographically; in flat mode also emit
requires and the provides list `crate(<name>) = <version>` plus
`crate(<name>/<feature>) = <version>` per local feature. -/

/-- A dependency declaration from one manifest bucket. -/
structure DependencySpec where
  name : String
  req : String
  optional : Bool
deriving DecidableEq, Repr

/-- The manifest snapshot the normalizer consumes. -/
structure Manifest where
  name : String
  version : String
  normalDeps : List DependencySpec
  buildDeps : List DependencySpec
  devDeps : List DependencySpec
  features : List (String × List String)
deriving DecidableEq, Repr

/-- Layered vs flat operating mode (spec §4.2). -/
inductive Mode where
  | layered
  | flat
deriving DecidableEq, Repr

/-- The seven category lists the normalizer produces. -/
structure NormOut where
  build_requires : List String
  build_conflicts : List String
  test_requires : List String
  test_conflicts : List String
  requires : List String
  conflicts : List String
  provides : List String
deriving DecidableEq, Repr

/-- Normalization failures (spec §7): a requirement `ParseError` carrying
the offending substring, a feature `CycleError`, or the unreachable fuel
marker of the resolver. -/
inductive NormErr where
  | parse (sub : String)
  | cycle (f : String)
  | fuel
deriving DecidableEq, Repr

/-- Render a version triple. -/
def showVer (v : SemVer) : String :=
  toString v.major ++ "." ++ toString v.minor ++ "." ++ toString v.patch

/-- The distribution capability name of a crate. -/
def capName (nm : String) : String := "crate(" ++ nm ++ ")"

/-- Distribution comparator strings for one parsed comparator: a single
lower-bound string when the range reduces to one, otherwise one string per
boundary (spec §4.1 output contract). -/
def compStrings (nm : String) (c : Comp) : List String :=
  match c with
  | Comp.eqC p =>
    match p.minor, p.patch with
    | some _, some _ => [capName nm ++ " = " ++ showVer p.lower]
    | _, _ => [capName nm ++ " >= " ++ showVer p.lower,
               capName nm ++ " < " ++ showVer (wildUpper p)]
  | Comp.gtC p => [capName nm ++ " > " ++ showVer p.lower]
  | Comp.geC p => [capName nm ++ " >= " ++ showVer p.lower]
  | Comp.ltC p => [capName nm ++ " < " ++ showVer p.lower]
  | Comp.leC p => [capName nm ++ " <= " ++ showVer p.lower]
  | Comp.caret p => [capName nm ++ " >= " ++ showVer p.lower,
                     capName nm ++ " < " ++ showVer (caretUpper p)]
  | Comp.tilde p => [capName nm ++ " >= " ++ showVer p.lower,
                     capName nm ++ " < " ++ showVer (tildeUpper p)]
  | Comp.wildcardAll => [capName nm]
  | Comp.wildcard p => [capName nm ++ " >= " ++ showVer p.lower,
                        capName nm ++ " < " ++ showVer (wildUpper p)]

/-- Encoded dependency strings of one dependency: the bare capability for
an empty requirement, otherwise the strings of its parsed comparators; a
malformed requirement aborts with `ParseError`. -/
def depStrings (d : DependencySpec) : Except NormErr (List String) :=
  if trimChars d.req.data = [] then Except.ok [capName d.name]
  else
    match parseReq d.req with
    | Except.error e => Except.error (NormErr.parse e)
    | Except.ok comps =>
      Except.ok (comps.foldr (fun c acc => compStrings d.name c ++ acc) [])

/-- Encoded strings of a whole bucket, aborting at the first malformed
dependency. -/
def bucketStrings : List DependencySpec → Except NormErr (List String)
  | [] => Except.ok []
  | d :: rest =>
    match depStrings d with
    | Except.error e => Except.error e
    | Except.ok l =>
      match bucketStrings rest with
      | Except.error e => Except.error e
      | Except.ok ls => Except.ok (l ++ ls)

/-- Lexicographic (non-strict) comparison of character lists. -/
def chLe : List Char → List Char → Bool
  | [], _ => true
  | _ :: _, [] => false
  | c :: cs, d :: ds =>
    if c < d then true
    else if c = d then chLe cs ds
    else false

/-- Lexicographic byte-wise string comparison (the deterministic order of
spec §4.2 step 4). -/
def strLe (a b : String) : Bool := chLe a.data b.data

/-- `chLe` is total. -/
theorem chLe_total : ∀ a b : List Char, chLe a b = true ∨ chLe b a = true := by
  intro a
  induction a with
  | nil => intro b; exact Or.inl rfl
  | cons c cs ih =>
    intro b
    cases b with
    | nil => exact Or.inr rfl
    | cons d ds =>
      rcases lt_trichotomy c d with h | h | h
      · left; simp [chLe, h]
      · subst h
        rcases ih ds with h2 | h2
        · left; simp [chLe, h2]
        · right; simp [chLe, h2]
      · right; simp [chLe, h]

/-- `chLe` is transitive. -/
theorem chLe_trans : ∀ a b c : List Char,
    chLe a b = true → chLe b c = true → chLe a c = true := by
  intro a
  induction a with
  | nil => intro b c _ _; rfl
  | cons x xs ih =>
    intro b c h1 h2
    cases b with
    | nil => simp [chLe] at h1
    | cons y ys =>
      cases c with
      | nil => simp [chLe] at h2
      | cons z zs =>
        simp only [chLe] at h1 h2 ⊢
        by_cases hxy : x < y
        · by_cases hyz : y < z
          · simp [lt_trans hxy hyz]
          · simp only [hyz, if_false] at h2
            by_cases heyz : y = z
            · subst heyz; simp [hxy]
            · simp [heyz] at h2
        · simp only [hxy, if_false] at h1
          by_cases hexy : x = y
          · subst hexy
            simp only [if_neg hxy] at h1
            by_cases hyz : x < z
            · simp [hyz]
            · simp only [hyz, if_false] at h2 ⊢
              by_cases heyz : x = z
              · simp only [heyz, if_true] at h2 ⊢
                subst heyz
                exact ih _ _ h1 h2
              · simp [heyz] at h2
          · simp [hexy] at h1

instance : IsTotal String (fun a b => strLe a b = true) :=
  ⟨fun a b => chLe_total a.data b.data⟩

instance : IsTrans String (fun a b => strLe a b = true) :=
  ⟨fun a b c => chLe_trans a.data b.data c.data⟩

/-- De-duplicate with set semantics and sort lexicographically
(spec §4.2 step 4). -/
def dedupSort (l : List String) : List String :=
  List.insertionSort (fun a b => strLe a b = true) l.dedup

/-- The dependencies activated by the `default` feature, via the Feature
Resolver; a manifest without a `default` feature activates nothing. -/
def defaultActivations (fm : List (String × List String)) :
    Except NormErr (List (String × Option String)) :=
  if (List.lookup "default" fm).isSome then
    match expandFuel (fm.length + 1) fm [] "default" with
    | none => Except.error NormErr.fuel
    | some (Except.error (ResolveErr.cycle f)) => Except.error (NormErr.cycle f)
    | some (Except.error ResolveErr.fuelOut) => Except.error NormErr.fuel
    | some (Except.ok l) => Except.ok l
  else Except.ok []

/-- Is this dependency included? Non-optional always, optional only when
the default feature activates it (spec §4.2 step 1). -/
def keepDep (active : List String) (d : DependencySpec) : Bool :=
  !d.optional || active.contains d.name

/-- The flat-mode provides contributions: the crate capability at its
exact version, plus one `crate(<name>/<feature>) = <version>` string per
locally-defined feature (spec §4.3 output, `test.py` scenarios). -/
def providesOf (m : Manifest) : List String :=
  (capName m.name ++ " = " ++ m.version)
    :: m.features.map
        (fun fe => "crate(" ++ m.name ++ "/" ++ fe.1 ++ ") = " ++ m.version)

/-- Modelled from the spec: `normalize(manifest, mode)` (spec §4.2). -/
def normalize (m : Manifest) (mode : Mode) : Except NormErr NormOut :=
  match defaultActivations m.features with
  | Except.error e => Except.error e
  | Except.ok acts =>
    let active := acts.map Prod.fst
    match bucketStrings (m.normalDeps.filter (keepDep active)) with
    | Except.error e => Except.error e
    | Except.ok normStrs =>
      match bucketStrings (m.buildDeps.filter (keepDep active)) with
      | Except.error e => Except.error e
      | Except.ok buildStrs =>
        match bucketStrings m.devDeps with
        | Except.error e => Except.error e
        | Except.ok devStrs =>
          Except.ok
            { build_requires := dedupSort (normStrs ++ buildStrs),
              build_conflicts := [],
              test_requires := dedupSort devStrs,
              test_conflicts := [],
              requires := if mode = Mode.flat then dedupSort normStrs else [],
              conflicts := [],
              provides := if mode = Mode.flat then dedupSort (providesOf m)
                          else [] }

/-- `dedupSort` output has no duplicates. -/
theorem dedupSort_nodup (l : List String) : (dedupSort l).Nodup :=
  (List.perm_insertionSort _ l.dedup).symm.nodup (List.nodup_dedup l)

/-- `dedupSort` output is lexicographically non-decreasing. -/
theorem dedupSort_sorted (l : List String) :
    (dedupSort l).Sorted (fun a b => strLe a b = true) :=
  List.sorted_insertionSort _ _

/-- `dedupSort` keeps exactly the strings of its input. -/
theorem mem_dedupSort {s : String} {l : List String} :
    s ∈ dedupSort l ↔ s ∈ l :=
  ((List.perm_insertionSort _ l.dedup).mem_iff).trans (List.mem_dedup)

/-- C2: the flat-mode provides list of the manifest `hello`/`0.0.0` with no
dependencies and no features is exactly `["crate(hello) = 0.0.0"]`. -/
theorem flat_provides_base_capability :
    ∃ out, normalize ⟨"hello", "0.0.0", [], [], [], []⟩ Mode.flat
        = Except.ok out ∧
      out.provides = ["crate(hello) = 0.0.0"] :=
  ⟨_, rfl, rfl⟩

/-- C3: every locally-defined feature contributes exactly one provides
string `crate(<name>/<feature>) = <version>` on top of the base
`crate(<name>) = <version>` provide, and the `hello`/`1.2.3` manifest with
one feature `color` yields exactly the two stated strings. -/
theorem provides_one_string_per_feature :
    (∀ m : Manifest,
      (providesOf m).length = 1 + m.features.length ∧
      (capName m.name ++ " = " ++ m.version) ∈ providesOf m ∧
      ∀ fe ∈ m.features,
        ("crate(" ++ m.name ++ "/" ++ fe.1 ++ ") = " ++ m.version)
          ∈ providesOf m) ∧
    (∃ out, normalize ⟨"hello", "1.2.3", [], [], [], [("color", [])]⟩
        Mode.flat = Except.ok out ∧
      out.provides = ["crate(hello) = 1.2.3", "crate(hello/color) = 1.2.3"])
    := by
  refine ⟨fun m => ⟨by simp [providesOf, Nat.add_comm], List.mem_cons_self _ _, ?_⟩,
    ⟨_, rfl, rfl⟩⟩
  intro fe hfe
  exact List.mem_cons_of_mem _ (List.mem_map_of_mem _ hfe)

/-- Witness for `provides_one_string_per_feature`: the `color` feature of
the `hello`/`1.2.3` manifest contributes its provides string. -/
theorem provides_one_string_per_feature_witness :
    ("crate(" ++ "hello" ++ "/" ++ "color" ++ ") = " ++ "1.2.3")
      ∈ providesOf ⟨"hello", "1.2.3", [], [], [], [("color", [])]⟩ :=
  (provides_one_string_per_feature.1
      ⟨"hello", "1.2.3", [], [], [], [("color", [])]⟩).2.2
    ("color", []) (by decide)

/-- C5: every category list a successful normalization returns is free of
duplicates, while the same encoded string may legitimately appear in two
different categories: a dependency declared in both the normal and the dev
bucket puts `crate(foo)` into both `build_requires` and `test_requires`. -/
theorem normalize_no_duplicates :
    (∀ (m : Manifest) (mode : Mode) (out : NormOut),
      normalize m mode = Except.ok out →
      out.build_requires.Nodup ∧ out.build_conflicts.Nodup ∧
      out.test_requires.Nodup ∧ out.test_conflicts.Nodup ∧
      out.requires.Nodup ∧ out.conflicts.Nodup ∧ out.provides.Nodup) ∧
    (∃ (m : Manifest) (out : NormOut) (s : String),
      normalize m Mode.flat = Except.ok out ∧
      s ∈ out.build_requires ∧ s ∈ out.test_requires) := by
  constructor
  · intro m mode out h
    simp only [normalize] at h
    split at h
    · exact Except.noConfusion h
    · split at h
      · exact Except.noConfusion h
      · split at h
        · exact Except.noConfusion h
        · split at h
          · exact Except.noConfusion h
          · injection h with h'
            subst h'
            refine ⟨dedupSort_nodup _, List.nodup_nil, dedupSort_nodup _,
              List.nodup_nil, ?_, List.nodup_nil, ?_⟩
            · cases mode <;> simp [dedupSort_nodup]
            · cases mode <;> simp [dedupSort_nodup]
  · exact ⟨⟨"h", "1.0.0", [⟨"foo", "", false⟩], [], [⟨"foo", "", false⟩],
      []⟩, _, "crate(foo)", rfl, by decide, by decide⟩

/-- Witness for `normalize_no_duplicates`: the duplicate-free property at
the concrete two-bucket manifest. -/
theorem normalize_no_duplicates_witness :
    (Rust2Rpm.normalize
        ⟨"h", "1.0.0", [⟨"foo", "", false⟩], [], [⟨"foo", "", false⟩], []⟩
        Mode.flat = Except.ok
          { build_requires := ["crate(foo)"], build_conflicts := [],
            test_requires := ["crate(foo)"], test_conflicts := [],
            requires := ["crate(foo)"], conflicts := [],
            provides := ["crate(h) = 1.0.0"] }) ∧
    (["crate(foo)"] : List String).Nodup := by
  refine ⟨rfl, ?_⟩
  have h := (normalize_no_duplicates.1
    ⟨"h", "1.0.0", [⟨"foo", "", false⟩], [], [⟨"foo", "", false⟩], []⟩
    Mode.flat
    { build_requires := ["crate(foo)"], build_conflicts := [],
      test_requires := ["crate(foo)"], test_conflicts := [],
      requires := ["crate(foo)"], conflicts := [],
      provides := ["crate(h) = 1.0.0"] } rfl).1
  exact h

/-! ## Ordering of the emitted lists

The spec-modelled normalizer sorts each category lexicographically by the
encoded string (spec §4.2 step 4).  The packaged CLI's template instead
sorts each dependency loop with `sort(attribute="name")` — by the
dependency object's `name` attribute, not by the full rendered string —
and the standalone script prints the generator's lines in the order
received. -/

/-- A dependency object as the packaged CLI's template sees it: a `name`
attribute used as the sort key, and the full encoded string it renders
to. -/
structure TplDep where
  name : String
  str : String
deriving DecidableEq, Repr

instance : IsTotal TplDep (fun a b => strLe a.name b.name = true) :=
  ⟨fun a b => chLe_total a.name.data b.name.data⟩

instance : IsTrans TplDep (fun a b => strLe a.name b.name = true) :=
  ⟨fun a b c => chLe_trans a.name.data b.name.data c.name.data⟩

/-- Embedding of the template's `sort(attribute="name")` filter
(`rust2rpm/__main__.py` lines 54, 60, 67, 89, 95): sort the dependency
objects by their `name` attribute. -/
def templateSortByName (ds : List TplDep) : List TplDep :=
  List.insertionSort (fun a b => strLe a.name b.name = true) ds

/-- C4: each category list of a successful spec-modelled normalization is
lexicographically non-decreasing by the full encoded string; the packaged
CLI's template instead sorts by the dependency's `name` attribute — which
for two same-name boundary strings leaves output that is *not* sorted by
the full string — and the standalone script passes the generator's lines
through unsorted. -/
theorem output_lists_sorted :
    (∀ (m : Manifest) (mode : Mode) (out : NormOut),
      normalize m mode = Except.ok out →
      out.build_requires.Sorted (fun a b => strLe a b = true) ∧
      out.build_conflicts.Sorted (fun a b => strLe a b = true) ∧
      out.test_requires.Sorted (fun a b => strLe a b = true) ∧
      out.test_conflicts.Sorted (fun a b => strLe a b = true) ∧
      out.requires.Sorted (fun a b => strLe a b = true) ∧
      out.conflicts.Sorted (fun a b => strLe a b = true) ∧
      out.provides.Sorted (fun a b => strLe a b = true)) ∧
    (∀ ds : List TplDep,
      (templateSortByName ds).Sorted (fun a b => strLe a.name b.name = true)) ∧
    (¬ ((templateSortByName
          [⟨"foo", "crate(foo) >= 1.2.0"⟩, ⟨"foo", "crate(foo) < 2.0.0"⟩]).map
            TplDep.str).Sorted (fun a b => strLe a b = true)) ∧
    (∀ (depgen : String → List String) (target : Target),
      (selectDepLists depgen target).buildrequires
        = depgen "--build-requires" ∧
      (selectDepLists depgen target).buildconflicts
        = depgen "--build-conflicts" ∧
      (selectDepLists depgen target).testrequires
        = depgen "--test-requires" ∧
      (selectDepLists depgen target).testconflicts
        = depgen "--test-conflicts") := by
  refine ⟨?_, fun ds => List.sorted_insertionSort _ _, by decide, ?_⟩
  · intro m mode out h
    simp only [normalize] at h
    split at h
    · exact Except.noConfusion h
    · split at h
      · exact Except.noConfusion h
      · split at h
        · exact Except.noConfusion h
        · split at h
          · exact Except.noConfusion h
          · injection h with h'
            subst h'
            refine ⟨dedupSort_sorted _, List.sorted_nil, dedupSort_sorted _,
              List.sorted_nil, ?_, List.sorted_nil, ?_⟩
            · cases mode <;> simp [dedupSort_sorted, List.sorted_nil]
            · cases mode <;> simp [dedupSort_sorted, List.sorted_nil]
  · intro depgen target
    cases target <;> exact ⟨rfl, rfl, rfl, rfl⟩

/-- Witness for `output_lists_sorted`: sortedness of the lists produced for
a concrete one-dependency manifest. -/
theorem output_lists_sorted_witness :
    normalize ⟨"h", "1.0.0", [⟨"b", "", false⟩, ⟨"a", "", false⟩], [], [], []⟩
        Mode.flat = Except.ok
      { build_requires := ["crate(a)", "crate(b)"], build_conflicts := [],
        test_requires := [], test_conflicts := [],
        requires := ["crate(a)", "crate(b)"], conflicts := [],
        provides := ["crate(h) = 1.0.0"] } ∧
    (["crate(a)", "crate(b)"] : List String).Sorted
      (fun a b => strLe a b = true) := by
  refine ⟨rfl, ?_⟩
  exact ((output_lists_sorted.1
    ⟨"h", "1.0.0", [⟨"b", "", false⟩, ⟨"a", "", false⟩], [], [], []⟩
    Mode.flat
    { build_requires := ["crate(a)", "crate(b)"], build_conflicts := [],
      test_requires := [], test_conflicts := [],
      requires := ["crate(a)", "crate(b)"], conflicts := [],
      provides := ["crate(h) = 1.0.0"] } rfl).1)

/-! ## All-or-nothing failure (`rust2rpm.py` lines 90–93 and 131–150)

`run_depgen` shells out to the dependency generator with
`subprocess.check_output`, which raises on a nonzero exit; the `__main__`
block makes its (up to seven) generator calls before the template is
rendered or anything is printed, so a failing call aborts the whole run
with no partial spec text.  We model the generator as a fallible function
and the run as the `Except`-valued composition of lines 131–150. -/

/-- Embedding of `rust2rpm.py` lines 131–150 with a fallible generator:
run the generator queries in source order, aborting at the first failure;
only when all succeed is the template rendered. -/
def generateSpec (dg : String → Except String (List String)) (target : Target)
    (render : DepLists → String) : Except String String :=
  match dg "--build-requires" with
  | Except.error e => Except.error e
  | Except.ok brs =>
    match dg "--build-conflicts" with
    | Except.error e => Except.error e
    | Except.ok bcs =>
      match dg "--test-requires" with
      | Except.error e => Except.error e
      | Except.ok trs =>
        match dg "--test-conflicts" with
        | Except.error e => Except.error e
        | Except.ok tcs =>
          if target = Target.fedora26 then
            Except.ok (render
              { buildrequires := brs, buildconflicts := bcs,
                testrequires := trs, testconflicts := tcs,
                provides := [], requires := [], conflicts := [] })
          else
            match dg "--provides" with
            | Except.error e => Except.error e
            | Except.ok ps =>
              match dg "--requires" with
              | Except.error e => Except.error e
              | Except.ok rs =>
                match dg "--conflicts" with
                | Except.error e => Except.error e
                | Except.ok cs =>
                  Except.ok (render
                    { buildrequires := brs, buildconflicts := bcs,
                      testrequires := trs, testconflicts := tcs,
                      provides := ps, requires := rs, conflicts := cs })

/-- A successful bucket means every dependency in it produced its
strings. -/
theorem bucketStrings_ok_mem {ds : List DependencySpec} {ls : List String}
    (h : bucketStrings ds = Except.ok ls) :
    ∀ d ∈ ds, (depStrings d).isOk = true := by
  induction ds generalizing ls with
  | nil => intro d hd; exact absurd hd (List.not_mem_nil d)
  | cons d0 rest ih =>
    intro d hd
    simp only [bucketStrings] at h
    cases hds : depStrings d0 with
    | error e => rw [hds] at h; exact Except.noConfusion h
    | ok l =>
      rw [hds] at h
      cases hrest : bucketStrings rest with
      | error e => rw [hrest] at h; exact Except.noConfusion h
      | ok ls2 =>
        rcases List.mem_cons.mp hd with rfl | hmem
        · rw [hds]; rfl
        · exact ih hrest d hmem

/-- C8: normalization is all-or-nothing — if any consulted dependency's
requirement fails to produce strings (its `ParseError`), `normalize`
returns an error and no output lists; and in the standalone CLI a failing
dependency-generator subprocess aborts the run before the template is
rendered: the first failure is the whole result, and a successful run
implies every generator call succeeded. -/
theorem malformed_requirement_aborts :
    (∀ (m : Manifest) (mode : Mode) (acts : List (String × Option String)),
      defaultActivations m.features = Except.ok acts →
      (∃ d : DependencySpec,
        (d ∈ m.normalDeps.filter (keepDep (acts.map Prod.fst)) ∨
         d ∈ m.buildDeps.filter (keepDep (acts.map Prod.fst)) ∨
         d ∈ m.devDeps) ∧ (depStrings d).isOk = false) →
      ∃ e, normalize m mode = Except.error e) ∧
    (∀ (dg : String → Except String (List String)) (target : Target)
        (render : DepLists → String) (e : String),
      dg "--build-requires" = Except.error e →
      generateSpec dg target render = Except.error e) ∧
    (∀ (dg : String → Except String (List String)) (target : Target)
        (render : DepLists → String) (out : String),
      generateSpec dg target render = Except.ok out →
      (dg "--build-requires").isOk = true ∧
      (dg "--build-conflicts").isOk = true ∧
      (dg "--test-requires").isOk = true ∧
      (dg "--test-conflicts").isOk = true) := by
  refine ⟨?_, ?_, ?_⟩
  · intro m mode acts hda ⟨d, hloc, hbad⟩
    cases hn : normalize m mode with
    | error e => exact ⟨e, rfl⟩
    | ok out =>
      exfalso
      simp only [normalize, hda] at hn
      cases hb1 : bucketStrings (m.normalDeps.filter
          (keepDep (acts.map Prod.fst))) with
      | error e => rw [hb1] at hn; exact Except.noConfusion hn
      | ok l1 =>
        rw [hb1] at hn
        cases hb2 : bucketStrings (m.buildDeps.filter
            (keepDep (acts.map Prod.fst))) with
        | error e => rw [hb2] at hn; exact Except.noConfusion hn
        | ok l2 =>
          rw [hb2] at hn
          cases hb3 : bucketStrings m.devDeps with
          | error e => rw [hb3] at hn; exact Except.noConfusion hn
          | ok l3 =>
            rcases hloc with hm | hm | hm
            · rw [bucketStrings_ok_mem hb1 d hm] at hbad
              exact Bool.noConfusion hbad
            · rw [bucketStrings_ok_mem hb2 d hm] at hbad
              exact Bool.noConfusion hbad
            · rw [bucketStrings_ok_mem hb3 d hm] at hbad
              exact Bool.noConfusion hbad
  · intro dg target render e h
    unfold generateSpec
    rw [h]
  · intro dg target render out h
    unfold generateSpec at h
    cases h1 : dg "--build-requires" with
    | error e => rw [h1] at h; exact Except.noConfusion h
    | ok brs =>
      rw [h1] at h
      cases h2 : dg "--build-conflicts" with
      | error e => rw [h2] at h; exact Except.noConfusion h
      | ok bcs =>
        rw [h2] at h
        cases h3 : dg "--test-requires" with
        | error e => rw [h3] at h; exact Except.noConfusion h
        | ok trs =>
          rw [h3] at h
          cases h4 : dg "--test-conflicts" with
          | error e => rw [h4] at h; exact Except.noConfusion h
          | ok tcs => exact ⟨rfl, rfl, rfl, rfl⟩

/-- Witness for `malformed_requirement_aborts`: a dependency with the
malformed requirement `abc` makes normalization fail, and a generator
whose first call fails aborts the standalone pipeline with its error. -/
theorem malformed_requirement_aborts_witness :
    (∃ e, normalize ⟨"h", "1.0.0", [⟨"foo", "abc", false⟩], [], [], []⟩
        Mode.flat = Except.error e) ∧
    generateSpec (fun _ => Except.error "exit status 1") Target.epel7
        (fun _ => "spec text") = Except.error "exit status 1" := by
  constructor
  · exact malformed_requirement_aborts.1
      ⟨"h", "1.0.0", [⟨"foo", "abc", false⟩], [], [], []⟩ Mode.flat [] rfl
      ⟨⟨"foo", "abc", false⟩, Or.inl (by decide), by decide⟩
  · exact malformed_requirement_aborts.2.1
      (fun _ => Except.error "exit status 1") Target.epel7
      (fun _ => "spec text") "exit status 1" rfl

end Rust2Rpm
